import Mathlib

/-!
Verification of the autopilot sequencer (src/tony/autopilot.py).

The Python program is a single cooperative asyncio task driving an external
control channel (NeuroAPI).  We embed it as a fuel-indexed interpreter over an
explicit state.  Time is measured in ticks of 0.1 s, the poll interval of the
three wait loops; a sleep of d seconds is d * 10 ticks.  The channel is a
behaviour: its two boolean signals are functions of the current tick, and its
result delivery is one of three modes (synchronously inside send_action, at the
next scheduler tick, or never).  Every observable interaction is recorded in a
timestamped trace.
-/

/-- A value that can sit in the on_action_result slot of the channel: either a
handler owned by the external library (abstract identity), or the trigger
closure created by the w-th call of wait_for_action_result. -/
inductive Handler where
  | ext (n : Nat)
  | trigger (w : Nat)
deriving DecidableEq

/-- Observable events of a run.  readyDone and forcedDone mark the completion
of the two poll waiters; installHandler and restoreHandler are the two
assignments to on_action_result inside wait_for_action_result; resultObserved
records an invocation of an installed trigger closure. -/
inductive Event where
  | start (addr : String) (port : Nat)
  | readyDone
  | forcedDone
  | sendAction (id name : String) (payload : Option String)
  | installHandler (w : Nat)
  | resultObserved (w : Nat)
  | restoreHandler (h : Option Handler)
  | stop
deriving DecidableEq

/-- A trace entry: an event stamped with the tick at which it happened. -/
structure TEv where
  time : Nat
  ev : Event
deriving DecidableEq

/-- How the channel delivers result notifications: sync invokes the currently
installed handler synchronously inside send_action; nextTick schedules the
invocation for the next scheduler tick (the next sleep point), as
run_sync_soon_threadsafe does; never delivers nothing. -/
inductive ResultMode where
  | sync
  | nextTick
  | never
deriving DecidableEq

/-- The external channel, as the core observes it. -/
structure Behavior where
  currentGame : Nat → Bool
  actionForced : Nat → Bool
  resultMode : ResultMode
  startFails : Bool
  sendFails : Nat → Bool

/-- Interpreter state: current tick, the on_action_result slot, whether a
result delivery is pending (nextTick mode), the set of trigger closures that
have fired, the id of the next trigger closure, the number of send_action
calls so far, and the trace (newest entry first). -/
structure St where
  time : Nat
  slot : Option Handler
  pending : Bool
  triggered : List Nat
  nextWaitId : Nat
  sendCount : Nat
  trace : List TEv

/-- Record an event at the current tick. -/
def emit (e : Event) (s : St) : St :=
  { s with trace := ⟨s.time, e⟩ :: s.trace }

/-- The body of the trigger closure of wait_for_action_result: set the
triggered flag of wait w (idempotently) and ignore the payload. -/
def trigger (w : Nat) (s : St) : St :=
  { emit (.resultObserved w) s with triggered := s.triggered.insert w }

/-- The channel invokes whatever handler currently sits in the slot.  An
external handler, or an empty slot, has no effect on the core state. -/
def invokeSlot (s : St) : St :=
  match s.slot with
  | some (.trigger w) => trigger w s
  | _ => s

/-- One 0.1 s tick of cooperative suspension: time advances by one, and a
pending result delivery is funnelled back onto the scheduler, invoking the
installed handler. -/
def sleepTick (s : St) : St :=
  let s1 : St := { s with time := s.time + 1 }
  if s1.pending then invokeSlot { s1 with pending := false } else s1

/-- Sleep for d ticks: a pending delivery fires at the first tick, the rest is
pure passage of time. -/
def sleepD : Nat → St → St
  | 0, s => s
  | d + 1, s => let s1 := sleepTick s; { s1 with time := s1.time + d }

/-- while not api.current_game: await asyncio.sleep(0.1) -/
def wait_for_startup (b : Behavior) : Nat → St → Option St
  | 0, _ => none
  | fuel + 1, s =>
    if b.currentGame s.time then some (emit .readyDone s)
    else wait_for_startup b fuel (sleepTick s)

/-- while not api.action_forced: await asyncio.sleep(0.1) -/
def wait_for_actions_force (b : Behavior) : Nat → St → Option St
  | 0, _ => none
  | fuel + 1, s =>
    if b.actionForced s.time then some (emit .forcedDone s)
    else wait_for_actions_force b fuel (sleepTick s)

/-- while not triggered: await asyncio.sleep(0.1) -/
def waitResultLoop (w : Nat) : Nat → St → Option St
  | 0, _ => none
  | fuel + 1, s =>
    if w ∈ s.triggered then some s
    else waitResultLoop w fuel (sleepTick s)

/-- wait_for_action_result: save the current handler, install a fresh trigger
closure, poll its flag, restore the saved handler. -/
def wait_for_action_result (b : Behavior) (fuel : Nat) (s : St) : Option St :=
  let prev := s.slot
  let w := s.nextWaitId
  let s1 := emit (.installHandler w)
    { s with slot := some (.trigger w), nextWaitId := w + 1 }
  match waitResultLoop w fuel s1 with
  | none => none
  | some s2 => some (emit (.restoreHandler prev) { s2 with slot := prev })

/-- api.start(address, port); may raise, which propagates. -/
def startCh (b : Behavior) (addr : String) (port : Nat) (s : St) : Except St St :=
  let s1 := emit (.start addr port) s
  if b.startFails then .error s1 else .ok s1

/-- api.send_action(id, name, payload); may raise, which propagates.  In sync
mode the channel invokes the currently installed handler inside the call; in
nextTick mode it schedules the delivery for the next scheduler tick. -/
def send_action (b : Behavior) (id name : String) (payload : Option String)
    (s : St) : Except St St :=
  let k := s.sendCount
  let s1 := emit (.sendAction id name payload) { s with sendCount := k + 1 }
  if b.sendFails k then .error s1
  else
    match b.resultMode with
    | .sync => .ok (invokeSlot s1)
    | .nextTick => .ok { s1 with pending := true }
    | .never => .ok s1

/-- Minimal model of Python json.dumps for a flat object with string keys and
string values, with the default separators. -/
def jstrEsc : List Char → List Char
  | [] => []
  | c :: cs =>
    if c = '\\' then '\\' :: '\\' :: jstrEsc cs
    else if c = '"' then '\\' :: '"' :: jstrEsc cs
    else c :: jstrEsc cs

/-- JSON string literal for s. -/
def jstr (s : String) : String :=
  "\"" ++ String.mk (jstrEsc s.data) ++ "\""

/-- json.dumps of a flat string-keyed, string-valued object. -/
def jsonDumps (ps : List (String × String)) : String :=
  "\x7b" ++ String.intercalate ", " (ps.map fun p => jstr p.1 ++ ": " ++ jstr p.2) ++ "\x7d"

/-- One step of the literal script: the command and the sleep (in ticks) that
follows its result. -/
structure ScriptStep where
  id : String
  name : String
  payload : Option String
  delay : Nat
deriving DecidableEq

/-- The literal 9-command script of main, with the sleeps that follow each
result (in ticks of 0.1 s). -/
def script : List ScriptStep :=
  [ ⟨"id_1", "chat", some (jsonDumps [("answer", "Sure, I\x27ll see what I can do.")]), 30⟩,
    ⟨"id_2", "get_files", none, 20⟩,
    ⟨"id_3", "open_file", some (jsonDumps [("filePath", "fixme.js")]), 20⟩,
    ⟨"id_4", "run_current_file", none, 50⟩,
    ⟨"id_5", "replace_text", some (jsonDumps
      [("find", "greetign"), ("replaceWith", "greeting"), ("match", "firstInFile")]), 20⟩,
    ⟨"id_6", "run_current_file", none, 50⟩,
    ⟨"id_7", "replace_text", some (jsonDumps
      [("find", ".replace(\x27%s\x27, greetingFormat)"),
       ("replaceWith", ".replace(\x27%s\x27, greetingTarget)"),
       ("match", "firstAfterCursor")]), 20⟩,
    ⟨"id_8", "run_current_file", none, 50⟩,
    ⟨"id_9", "request_cookie", some (jsonDumps [("flavor", "Chocolate Chip")]), 20⟩ ]

/-- Outcome of a run: normal completion, or an uncaught exception propagating
out of main with the state at the raise point. -/
inductive Outcome where
  | ok (s : St)
  | raised (s : St)

/-- The per-step part of main: send the command, wait for its result, sleep
the configured delay, continue with the rest of the script. -/
def runScript (b : Behavior) (fuel : Nat) : List ScriptStep → St → Option Outcome
  | [], s => some (.ok s)
  | stp :: rest, s =>
    match send_action b stp.id stp.name stp.payload s with
    | .error s1 => some (.raised s1)
    | .ok s1 =>
      match wait_for_action_result b fuel s1 with
      | none => none
      | some s2 => runScript b fuel rest (sleepD stp.delay s2)

/-- The initial state: fresh channel whose slot holds the handler the external
library put there (if any). -/
def initSt (es : Option Nat) : St :=
  ⟨0, es.map Handler.ext, false, [], 0, 0, []⟩

/-- main: start the channel, wait for readiness, wait for the forced first
action, settle one second, run the 9-step script, stop the channel.  fuel
bounds the number of iterations of each individual wait loop; none means some
wait loop was still suspended when the fuel ran out. -/
def runMain (b : Behavior) (es : Option Nat) (fuel : Nat) : Option Outcome :=
  match startCh b "localhost" 8000 (initSt es) with
  | .error s => some (.raised s)
  | .ok s =>
    match wait_for_startup b fuel s with
    | none => none
    | some s1 =>
      match wait_for_actions_force b fuel s1 with
      | none => none
      | some s2 =>
        match runScript b fuel script (sleepD 10 s2) with
        | some (.ok s3) => some (.ok (emit .stop s3))
        | r => r

/-! ### Trace extraction -/

/-- Chronological order of a trace (the state stores the newest entry first). -/
def chron (tr : List TEv) : List TEv := tr.reverse

/-- The id of a send_action entry, none otherwise. -/
def sendIdEv (te : TEv) : Option String :=
  match te.ev with
  | .sendAction i _ _ => some i
  | _ => none

/-- The tick of a send_action entry, none otherwise. -/
def sendTimeEv (te : TEv) : Option Nat :=
  match te.ev with
  | .sendAction _ _ _ => some te.time
  | _ => none

/-- The event of a trace entry unless it is a resultObserved. -/
def keyEv (te : TEv) : Option Event :=
  match te.ev with
  | .resultObserved _ => none
  | e => some e

/-- True on restoreHandler entries. -/
def isRestoreEv (te : TEv) : Bool :=
  match te.ev with
  | .restoreHandler _ => true
  | _ => false

/-- The ids of the send_action calls, in chronological order. -/
def sendIds (tr : List TEv) : List String :=
  (chron tr).filterMap sendIdEv

/-- The ticks at which the send_action calls happened, chronologically. -/
def sendTimes (tr : List TEv) : List Nat :=
  (chron tr).filterMap sendTimeEv

/-- Number of stop calls in a trace. -/
def stopCount (tr : List TEv) : Nat :=
  tr.countP fun te => te.ev = .stop

/-- Number of restoreHandler events in a trace. -/
def restoreCount (tr : List TEv) : Nat :=
  tr.countP isRestoreEv

/-- Events that are not resultObserved, chronologically: the calls the core
itself performs on or around the channel. -/
def keyEvents (tr : List TEv) : List Event :=
  (chron tr).filterMap keyEv

/-- The chronological non-resultObserved events one script suffix contributes,
when the saved handler is h and the first fresh wait id is the second
argument: for each step, its send, the install of its trigger, and the restore
of h. -/
def stepsKeyChron (h : Option Handler) : Nat → List ScriptStep → List Event
  | _, [] => []
  | w0, stp :: rest =>
    Event.sendAction stp.id stp.name stp.payload :: Event.installHandler w0 ::
      Event.restoreHandler h :: stepsKeyChron h (w0 + 1) rest

/-- The full expected chronological key-event trace of a successful run of
main with initial external handler es. -/
def mainKeyEvents (es : Option Nat) : List Event :=
  Event.start "localhost" 8000 :: Event.readyDone :: Event.forcedDone ::
    (stepsKeyChron (es.map Handler.ext) 0 script ++ [Event.stop])

/-- The timing chain of a run: given the trace, the tick of the next send, and
the wait id of the next step, each step of the script contributes a pair
(send tick, wait-exit tick) such that the send happens exactly at the
scheduled tick, a result notification for this step is observed between the
send and the wait exit, and the next send is scheduled at the wait exit plus
the step delay. -/
def stepChain (tr : List TEv) : Nat → Nat → List (Nat × Nat) → List ScriptStep → Prop
  | t0, w, (ts, te) :: rest, stp :: steps =>
      ts = t0 ∧ ts ≤ te ∧
      (∃ r, ts ≤ r ∧ r ≤ te ∧ (⟨r, Event.resultObserved w⟩ : TEv) ∈ tr) ∧
      stepChain tr (te + stp.delay) (w + 1) rest steps
  | _, _, [], [] => True
  | _, _, _, _ => False

/-- True when writing the event is a write to the channel: a send, a stop, or
an assignment to the handler slot. -/
def channelWrite : Event → Bool
  | .sendAction _ _ _ => true
  | .stop => true
  | .installHandler _ => true
  | .restoreHandler _ => true
  | _ => false

/-- Scan of the ordering discipline: the flag says whether a resultObserved
has been seen since the previous send. -/
def sendsAfterResultsGo : List Event → Bool → Bool
  | [], _ => true
  | .sendAction _ _ _ :: rest, seen => seen && sendsAfterResultsGo rest false
  | .resultObserved _ :: rest, _ => sendsAfterResultsGo rest true
  | _ :: rest, seen => sendsAfterResultsGo rest seen

/-- Checker for the ordering discipline: scanning the chronological events, no
send happens unless a resultObserved was seen since the previous send. -/
def sendsAfterResults (evs : List Event) : Bool :=
  sendsAfterResultsGo evs true

/-! ### Concrete behaviours -/

/-- The channel of the end-to-end scenario, with the synchronous-delivery
reading: ready from tick 2, forced from tick 5, the result handler invoked
synchronously inside every send_action call. -/
def syncB : Behavior :=
  ⟨fun t => 2 ≤ t, fun t => 5 ≤ t, .sync, false, fun _ => false⟩

/-- The channel of the end-to-end scenario with delivery at the next scheduler
tick after each send_action call. -/
def asyncB : Behavior :=
  ⟨fun t => 2 ≤ t, fun t => 5 ≤ t, .nextTick, false, fun _ => false⟩

/-- A well-behaved channel whose k-th send_action call raises. -/
def errB (k : Nat) : Behavior :=
  ⟨fun t => 2 ≤ t, fun t => 5 ≤ t, .nextTick, false, fun j => j = k⟩

/-- A channel whose start call raises. -/
def startFailB : Behavior :=
  ⟨fun t => 2 ≤ t, fun t => 5 ≤ t, .nextTick, true, fun _ => false⟩

/-- A channel on which neither polled signal ever becomes true. -/
def neverB : Behavior :=
  ⟨fun _ => false, fun _ => false, .never, false, fun _ => false⟩

/-- A channel on which both polled signals are true from tick 3 on. -/
def lateB : Behavior :=
  ⟨fun t => 3 ≤ t, fun t => 3 ≤ t, .nextTick, false, fun _ => false⟩

/-- The nine command ids of the script. -/
def nineIds : List String :=
  ["id_1", "id_2", "id_3", "id_4", "id_5", "id_6", "id_7", "id_8", "id_9"]

/-- The trace of an outcome (empty when the run is still suspended). -/
def runTrace : Option Outcome → List TEv
  | some (.ok s) => s.trace
  | some (.raised s) => s.trace
  | none => []

/-- True when the run completed normally. -/
def isOk : Option Outcome → Bool
  | some (.ok _) => true
  | _ => false

/-- True when the run ended with a propagated exception. -/
def isRaised : Option Outcome → Bool
  | some (.raised _) => true
  | _ => false

/-- A state in the middle of a run: empty handler slot, a result delivery
pending, no wait outstanding. -/
def demoSt : St :=
  ⟨0, none, true, [], 0, 0, []⟩

/-- Failure scenarios for the run: case 0 is a start call that raises, case
k + 1 is a channel whose send number k raises. -/
def failB : Fin 10 → Behavior
  | ⟨0, _⟩ => startFailB
  | ⟨j + 1, _⟩ => errB j

/-! ### Basic lemmas about the scheduler tick -/

/-- A trace fragment that contains only resultObserved events, i.e. only
invocations of installed trigger closures by the channel. -/
def obsOnly (d : List TEv) : Prop :=
  ∀ te ∈ d, ∃ w, te.ev = Event.resultObserved w

lemma sleepTick_cases (s : St) :
    (s.pending = false ∧ sleepTick s = { s with time := s.time + 1 }) ∨
    (s.pending = true ∧ (∀ w, s.slot ≠ some (Handler.trigger w)) ∧
      sleepTick s = { s with time := s.time + 1, pending := false }) ∨
    (∃ w, s.pending = true ∧ s.slot = some (Handler.trigger w) ∧
      sleepTick s = { s with
                      time := s.time + 1, pending := false,
                      triggered := s.triggered.insert w,
                      trace := ⟨s.time + 1, Event.resultObserved w⟩ :: s.trace }) := by
  rcases hp : s.pending
  · left
    exact ⟨rfl, by simp [sleepTick, hp]⟩
  · rcases hs : s.slot with _ | h
    · right; left
      refine ⟨rfl, by simp [hs], ?_⟩
      simp [sleepTick, hp, invokeSlot, hs]
    · cases h with
      | ext n =>
        right; left
        refine ⟨rfl, by simp [hs], ?_⟩
        simp [sleepTick, hp, invokeSlot, hs]
      | trigger w =>
        right; right
        refine ⟨w, rfl, rfl, ?_⟩
        simp [sleepTick, hp, invokeSlot, hs, trigger, emit]

lemma sleepTick_slot (s : St) : (sleepTick s).slot = s.slot := by
  rcases sleepTick_cases s with ⟨_, h⟩ | ⟨_, _, h⟩ | ⟨w, _, _, h⟩ <;> rw [h]

lemma sleepTick_time (s : St) : (sleepTick s).time = s.time + 1 := by
  rcases sleepTick_cases s with ⟨_, h⟩ | ⟨_, _, h⟩ | ⟨w, _, _, h⟩ <;> rw [h]

lemma sleepTick_nextWaitId (s : St) : (sleepTick s).nextWaitId = s.nextWaitId := by
  rcases sleepTick_cases s with ⟨_, h⟩ | ⟨_, _, h⟩ | ⟨w, _, _, h⟩ <;> rw [h]

lemma sleepTick_sendCount (s : St) : (sleepTick s).sendCount = s.sendCount := by
  rcases sleepTick_cases s with ⟨_, h⟩ | ⟨_, _, h⟩ | ⟨w, _, _, h⟩ <;> rw [h]

lemma sleepTick_trace (s : St) :
    ∃ d, (sleepTick s).trace = d ++ s.trace ∧ obsOnly d := by
  rcases sleepTick_cases s with ⟨_, h⟩ | ⟨_, _, h⟩ | ⟨w, _, _, h⟩
  · exact ⟨[], by simp [h], by simp [obsOnly]⟩
  · exact ⟨[], by simp [h], by simp [obsOnly]⟩
  · exact ⟨[⟨s.time + 1, Event.resultObserved w⟩], by simp [h], by simp [obsOnly]⟩

lemma sleepTick_pending_false {s : St} (h : s.pending = false) :
    sleepTick s = { s with time := s.time + 1 } := by
  simp [sleepTick, h]

lemma sleepD_pending_false {s : St} (h : s.pending = false) (d : Nat) :
    sleepD d s = { s with time := s.time + d } := by
  cases d with
  | zero => simp [sleepD]
  | succ n =>
    rw [sleepD, sleepTick_pending_false h]
    simp [Nat.add_assoc, Nat.add_comm 1 n]

/-! ### The result-wait loop -/

lemma waitResultLoop_mem {w : Nat} {s s' : St} (hm : w ∈ s.triggered) {fuel : Nat}
    (h : waitResultLoop w fuel s = some s') : s' = s := by
  cases fuel with
  | zero => simp [waitResultLoop] at h
  | succ n =>
    rw [waitResultLoop] at h
    simp [hm] at h
    exact h.symm

lemma waitResultLoop_frame : ∀ (fuel w : Nat) (s s' : St),
    waitResultLoop w fuel s = some s' →
    s'.slot = s.slot ∧ s'.nextWaitId = s.nextWaitId ∧ s'.sendCount = s.sendCount ∧
    s.time ≤ s'.time ∧ ∃ d, s'.trace = d ++ s.trace ∧ obsOnly d := by
  intro fuel
  induction fuel with
  | zero => intro w s s' h; simp [waitResultLoop] at h
  | succ n ih =>
    intro w s s' h
    rw [waitResultLoop] at h
    by_cases hm : w ∈ s.triggered
    · simp only [hm, if_pos] at h
      obtain rfl : s = s' := by simpa using h
      exact ⟨rfl, rfl, rfl, le_refl _, [], rfl, by simp [obsOnly]⟩
    · simp only [hm, if_neg, not_false_iff] at h
      obtain ⟨h1, h2, h3, h4, d, hd, hobs⟩ := ih w (sleepTick s) s' h
      obtain ⟨d0, hd0, hobs0⟩ := sleepTick_trace s
      refine ⟨by rw [h1, sleepTick_slot], by rw [h2, sleepTick_nextWaitId],
        by rw [h3, sleepTick_sendCount], ?_, d ++ d0, ?_, ?_⟩
      · have ht := sleepTick_time s
        omega
      · rw [hd, hd0, List.append_assoc]
      · intro te hte
        rcases List.mem_append.mp hte with hx | hx
        · exact hobs te hx
        · exact hobs0 te hx

lemma waitResultLoop_fire : ∀ (fuel w : Nat) (s s' : St),
    s.slot = some (Handler.trigger w) → w ∉ s.triggered →
    waitResultLoop w fuel s = some s' →
    s'.pending = false ∧ s'.triggered = s.triggered.insert w ∧
    ∃ r, s.time ≤ r ∧ r ≤ s'.time ∧ (⟨r, Event.resultObserved w⟩ : TEv) ∈ s'.trace := by
  intro fuel
  induction fuel with
  | zero => intro w s s' _ _ h; simp [waitResultLoop] at h
  | succ n ih =>
    intro w s s' hslot hfresh h
    rw [waitResultLoop] at h
    simp only [hfresh, if_neg, not_false_iff] at h
    by_cases hp : s.pending = true
    · have he : sleepTick s = { s with
                                time := s.time + 1, pending := false,
                                triggered := s.triggered.insert w,
                                trace := ⟨s.time + 1, Event.resultObserved w⟩ :: s.trace } := by
        simp [sleepTick, hp, invokeSlot, hslot, trigger, emit]
      rw [he] at h
      have hse := waitResultLoop_mem (by simp : w ∈ (List.insert w s.triggered)) h
      rw [hse]
      refine ⟨rfl, rfl, s.time + 1, Nat.le_succ _, le_refl _, ?_⟩
      simp
    · have hpf : s.pending = false := by simpa using hp
      rw [sleepTick_pending_false hpf] at h
      obtain ⟨h1, h2, r, hr1, hr2, hr3⟩ :=
        ih w _ s' (by simpa using hslot) (by simpa using hfresh) h
      refine ⟨h1, by simpa using h2, r, ?_, hr2, hr3⟩
      simp at hr1
      omega

lemma waitResultLoop_stuck : ∀ (fuel w : Nat) (s : St),
    w ∉ s.triggered → s.pending = false → waitResultLoop w fuel s = none := by
  intro fuel
  induction fuel with
  | zero => intro w s _ _; rfl
  | succ n ih =>
    intro w s hfresh hp
    rw [waitResultLoop]
    simp only [hfresh, if_neg, not_false_iff]
    rw [sleepTick_pending_false hp]
    exact ih w _ (by simpa using hfresh) (by simpa using hp)

/-! ### wait_for_action_result -/

lemma wait_for_action_result_frame {b : Behavior} {fuel : Nat} {s s' : St}
    (h : wait_for_action_result b fuel s = some s') :
    s'.slot = s.slot ∧ s'.nextWaitId = s.nextWaitId + 1 ∧ s'.sendCount = s.sendCount ∧
    s.time ≤ s'.time ∧
    ∃ d, s'.trace =
        ⟨s'.time, Event.restoreHandler s.slot⟩ :: d ++
          ⟨s.time, Event.installHandler s.nextWaitId⟩ :: s.trace ∧ obsOnly d := by
  rw [wait_for_action_result] at h
  rcases heq : waitResultLoop s.nextWaitId fuel
      (emit (Event.installHandler s.nextWaitId)
        { s with slot := some (Handler.trigger s.nextWaitId), nextWaitId := s.nextWaitId + 1 })
    with _ | s2
  · rw [heq] at h; simp at h
  · rw [heq] at h
    simp only [Option.some.injEq] at h
    obtain ⟨h1, h2, h3, h4, d, hd, hobs⟩ := waitResultLoop_frame fuel s.nextWaitId _ s2 heq
    subst h
    refine ⟨by simp [emit], by simpa [emit] using h2, by simpa [emit] using h3,
      by simpa [emit] using h4, d, ?_, hobs⟩
    simp only [emit] at hd ⊢
    rw [hd]
    simp

lemma wait_for_action_result_spec {b : Behavior} {fuel : Nat} {s s' : St}
    (hfresh : s.nextWaitId ∉ s.triggered)
    (h : wait_for_action_result b fuel s = some s') :
    s'.slot = s.slot ∧ s'.nextWaitId = s.nextWaitId + 1 ∧ s'.sendCount = s.sendCount ∧
    s.time ≤ s'.time ∧ s'.pending = false ∧
    s'.triggered = s.triggered.insert s.nextWaitId ∧
    (∃ r, s.time ≤ r ∧ r ≤ s'.time ∧
      (⟨r, Event.resultObserved s.nextWaitId⟩ : TEv) ∈ s'.trace) ∧
    ∃ d, s'.trace =
        ⟨s'.time, Event.restoreHandler s.slot⟩ :: d ++
          ⟨s.time, Event.installHandler s.nextWaitId⟩ :: s.trace ∧ obsOnly d := by
  obtain ⟨f1, f2, f3, f4, d, hd, hobs⟩ := wait_for_action_result_frame h
  rw [wait_for_action_result] at h
  rcases heq : waitResultLoop s.nextWaitId fuel
      (emit (Event.installHandler s.nextWaitId)
        { s with slot := some (Handler.trigger s.nextWaitId), nextWaitId := s.nextWaitId + 1 })
    with _ | s2
  · rw [heq] at h; simp at h
  · rw [heq] at h
    simp only [Option.some.injEq] at h
    obtain ⟨g1, g2, r, hr1, hr2, hr3⟩ :=
      waitResultLoop_fire fuel s.nextWaitId _ s2 (by simp [emit]) (by simpa [emit] using hfresh) heq
    subst h
    refine ⟨f1, f2, f3, f4, by simpa [emit] using g1, by simpa [emit] using g2,
      ⟨r, by simpa [emit] using hr1, by simpa [emit] using hr2, ?_⟩, d, hd, hobs⟩
    simp only [emit]
    exact List.mem_cons_of_mem _ hr3

/-! ### The two polling waiters -/

lemma wait_for_startup_frame {b : Behavior} : ∀ (fuel : Nat) (s s' : St),
    wait_for_startup b fuel s = some s' →
    s'.slot = s.slot ∧ s'.nextWaitId = s.nextWaitId ∧ s'.sendCount = s.sendCount ∧
    s.time ≤ s'.time ∧ b.currentGame s'.time = true ∧
    ∃ d, s'.trace = ⟨s'.time, Event.readyDone⟩ :: d ++ s.trace ∧ obsOnly d := by
  intro fuel
  induction fuel with
  | zero => intro s s' h; simp [wait_for_startup] at h
  | succ n ih =>
    intro s s' h
    rw [wait_for_startup] at h
    by_cases hc : b.currentGame s.time
    · simp only [hc, if_pos] at h
      obtain rfl : emit Event.readyDone s = s' := by simpa using h
      exact ⟨rfl, rfl, rfl, le_refl _, by simpa [emit] using hc, [], by simp [emit], by simp [obsOnly]⟩
    · simp only [hc, if_neg, not_false_iff] at h
      obtain ⟨h1, h2, h3, h4, h5, d, hd, hobs⟩ := ih (sleepTick s) s' h
      obtain ⟨d0, hd0, hobs0⟩ := sleepTick_trace s
      refine ⟨by rw [h1, sleepTick_slot], by rw [h2, sleepTick_nextWaitId],
        by rw [h3, sleepTick_sendCount], ?_, h5, d ++ d0, ?_, ?_⟩
      · have ht := sleepTick_time s
        omega
      · rw [hd, hd0]
        simp
      · intro te hte
        rcases List.mem_append.mp hte with hx | hx
        · exact hobs te hx
        · exact hobs0 te hx

lemma wait_for_actions_force_frame {b : Behavior} : ∀ (fuel : Nat) (s s' : St),
    wait_for_actions_force b fuel s = some s' →
    s'.slot = s.slot ∧ s'.nextWaitId = s.nextWaitId ∧ s'.sendCount = s.sendCount ∧
    s.time ≤ s'.time ∧ b.actionForced s'.time = true ∧
    ∃ d, s'.trace = ⟨s'.time, Event.forcedDone⟩ :: d ++ s.trace ∧ obsOnly d := by
  intro fuel
  induction fuel with
  | zero => intro s s' h; simp [wait_for_actions_force] at h
  | succ n ih =>
    intro s s' h
    rw [wait_for_actions_force] at h
    by_cases hc : b.actionForced s.time
    · simp only [hc, if_pos] at h
      obtain rfl : emit Event.forcedDone s = s' := by simpa using h
      exact ⟨rfl, rfl, rfl, le_refl _, by simpa [emit] using hc, [], by simp [emit], by simp [obsOnly]⟩
    · simp only [hc, if_neg, not_false_iff] at h
      obtain ⟨h1, h2, h3, h4, h5, d, hd, hobs⟩ := ih (sleepTick s) s' h
      obtain ⟨d0, hd0, hobs0⟩ := sleepTick_trace s
      refine ⟨by rw [h1, sleepTick_slot], by rw [h2, sleepTick_nextWaitId],
        by rw [h3, sleepTick_sendCount], ?_, h5, d ++ d0, ?_, ?_⟩
      · have ht := sleepTick_time s
        omega
      · rw [hd, hd0]
        simp
      · intro te hte
        rcases List.mem_append.mp hte with hx | hx
        · exact hobs te hx
        · exact hobs0 te hx

lemma wait_for_startup_pf {b : Behavior} : ∀ (fuel : Nat) (s s' : St),
    s.pending = false → wait_for_startup b fuel s = some s' →
    ∃ t, s.time ≤ t ∧ b.currentGame t = true ∧
      s' = emit Event.readyDone { s with time := t } := by
  intro fuel
  induction fuel with
  | zero => intro s s' _ h; simp [wait_for_startup] at h
  | succ n ih =>
    intro s s' hp h
    rw [wait_for_startup] at h
    by_cases hc : b.currentGame s.time
    · simp only [hc, if_pos] at h
      obtain rfl : emit Event.readyDone s = s' := by simpa using h
      exact ⟨s.time, le_refl _, hc, by simp⟩
    · simp only [hc, if_neg, not_false_iff] at h
      rw [sleepTick_pending_false hp] at h
      obtain ⟨t, ht1, ht2, ht3⟩ := ih _ s' (by simpa using hp) h
      simp at ht1
      refine ⟨t, by omega, ht2, by simpa using ht3⟩

lemma wait_for_actions_force_pf {b : Behavior} : ∀ (fuel : Nat) (s s' : St),
    s.pending = false → wait_for_actions_force b fuel s = some s' →
    ∃ t, s.time ≤ t ∧ b.actionForced t = true ∧
      s' = emit Event.forcedDone { s with time := t } := by
  intro fuel
  induction fuel with
  | zero => intro s s' _ h; simp [wait_for_actions_force] at h
  | succ n ih =>
    intro s s' hp h
    rw [wait_for_actions_force] at h
    by_cases hc : b.actionForced s.time
    · simp only [hc, if_pos] at h
      obtain rfl : emit Event.forcedDone s = s' := by simpa using h
      exact ⟨s.time, le_refl _, hc, by simp⟩
    · simp only [hc, if_neg, not_false_iff] at h
      rw [sleepTick_pending_false hp] at h
      obtain ⟨t, ht1, ht2, ht3⟩ := ih _ s' (by simpa using hp) h
      simp at ht1
      refine ⟨t, by omega, ht2, by simpa using ht3⟩

lemma wait_for_startup_never {b : Behavior} (hb : ∀ t, b.currentGame t = false) :
    ∀ (fuel : Nat) (s : St), wait_for_startup b fuel s = none := by
  intro fuel
  induction fuel with
  | zero => intro s; rfl
  | succ n ih =>
    intro s
    rw [wait_for_startup]
    simp only [hb s.time, Bool.false_eq_true, if_neg, not_false_iff]
    exact ih _

lemma wait_for_actions_force_never {b : Behavior} (hb : ∀ t, b.actionForced t = false) :
    ∀ (fuel : Nat) (s : St), wait_for_actions_force b fuel s = none := by
  intro fuel
  induction fuel with
  | zero => intro s; rfl
  | succ n ih =>
    intro s
    rw [wait_for_actions_force]
    simp only [hb s.time, Bool.false_eq_true, if_neg, not_false_iff]
    exact ih _

lemma wait_for_startup_total {b : Behavior} {T : Nat}
    (hb : ∀ t, T ≤ t → b.currentGame t = true) :
    ∀ (n : Nat) (s : St), T ≤ s.time + n → ∃ s', wait_for_startup b (n + 1) s = some s' := by
  intro n
  induction n with
  | zero =>
    intro s hT
    refine ⟨emit Event.readyDone s, ?_⟩
    rw [wait_for_startup]
    simp [hb s.time (by omega)]
  | succ m ih =>
    intro s hT
    by_cases hc : b.currentGame s.time
    · refine ⟨emit Event.readyDone s, ?_⟩
      rw [wait_for_startup]
      simp [hc]
    · obtain ⟨s', hs'⟩ := ih (sleepTick s) (by rw [sleepTick_time]; omega)
      refine ⟨s', ?_⟩
      rw [wait_for_startup]
      simp only [hc, if_neg, not_false_iff]
      exact hs'

lemma wait_for_actions_force_total {b : Behavior} {T : Nat}
    (hb : ∀ t, T ≤ t → b.actionForced t = true) :
    ∀ (n : Nat) (s : St), T ≤ s.time + n →
      ∃ s', wait_for_actions_force b (n + 1) s = some s' := by
  intro n
  induction n with
  | zero =>
    intro s hT
    refine ⟨emit Event.forcedDone s, ?_⟩
    rw [wait_for_actions_force]
    simp [hb s.time (by omega)]
  | succ m ih =>
    intro s hT
    by_cases hc : b.actionForced s.time
    · refine ⟨emit Event.forcedDone s, ?_⟩
      rw [wait_for_actions_force]
      simp [hc]
    · obtain ⟨s', hs'⟩ := ih (sleepTick s) (by rw [sleepTick_time]; omega)
      refine ⟨s', ?_⟩
      rw [wait_for_actions_force]
      simp only [hc, if_neg, not_false_iff]
      exact hs'

/-! ### Trace extraction lemmas -/

lemma filterMap_chron_append {α : Type} (f : TEv → Option α) (d tr : List TEv) :
    (chron (d ++ tr)).filterMap f = (chron tr).filterMap f ++ (chron d).filterMap f := by
  simp [chron, List.filterMap_append]

lemma keyEvents_append (d tr : List TEv) :
    keyEvents (d ++ tr) = keyEvents tr ++ (chron d).filterMap keyEv := by
  simp [keyEvents, filterMap_chron_append]

lemma sendIds_append (d tr : List TEv) :
    sendIds (d ++ tr) = sendIds tr ++ (chron d).filterMap sendIdEv := by
  simp [sendIds, filterMap_chron_append]

lemma sendTimes_append (d tr : List TEv) :
    sendTimes (d ++ tr) = sendTimes tr ++ (chron d).filterMap sendTimeEv := by
  simp [sendTimes, filterMap_chron_append]

lemma keyEvents_cons (a : TEv) (tr : List TEv) :
    keyEvents (a :: tr) = keyEvents tr ++ (keyEv a).toList := by
  have : a :: tr = [a] ++ tr := rfl
  rw [this, keyEvents_append]
  cases h : keyEv a <;> simp [chron, h]

lemma sendIds_cons (a : TEv) (tr : List TEv) :
    sendIds (a :: tr) = sendIds tr ++ (sendIdEv a).toList := by
  have : a :: tr = [a] ++ tr := rfl
  rw [this, sendIds_append]
  cases h : sendIdEv a <;> simp [chron, h]

lemma sendTimes_cons (a : TEv) (tr : List TEv) :
    sendTimes (a :: tr) = sendTimes tr ++ (sendTimeEv a).toList := by
  have : a :: tr = [a] ++ tr := rfl
  rw [this, sendTimes_append]
  cases h : sendTimeEv a <;> simp [chron, h]

lemma obsOnly_keyEv {d : List TEv} (h : obsOnly d) :
    d.filterMap keyEv = [] := by
  rw [List.filterMap_eq_nil]
  intro te hte
  obtain ⟨w, hw⟩ := h te hte
  simp [keyEv, hw]

lemma obsOnly_sendIdEv {d : List TEv} (h : obsOnly d) :
    d.filterMap sendIdEv = [] := by
  rw [List.filterMap_eq_nil]
  intro te hte
  obtain ⟨w, hw⟩ := h te hte
  simp [sendIdEv, hw]

lemma obsOnly_sendTimeEv {d : List TEv} (h : obsOnly d) :
    d.filterMap sendTimeEv = [] := by
  rw [List.filterMap_eq_nil]
  intro te hte
  obtain ⟨w, hw⟩ := h te hte
  simp [sendTimeEv, hw]

lemma obsOnly_chron {d : List TEv} (h : obsOnly d) : obsOnly (chron d) := by
  intro te hte
  exact h te (by simpa [chron] using hte)

lemma obsOnly_stopCount {d : List TEv} (h : obsOnly d) : stopCount d = 0 := by
  rw [stopCount, List.countP_eq_zero]
  intro te hte
  obtain ⟨w, hw⟩ := h te hte
  simp [hw]

lemma stopCount_append (d tr : List TEv) :
    stopCount (d ++ tr) = stopCount d + stopCount tr := by
  simp [stopCount, List.countP_append]

lemma stopCount_cons_other {a : TEv} (ha : ¬ a.ev = Event.stop) (tr : List TEv) :
    stopCount (a :: tr) = stopCount tr := by
  simp [stopCount, List.countP_cons, ha]

/-! ### send_action and start -/

lemma send_action_ok {b : Behavior} {id name : String} {payload : Option String}
    {s s' : St} (hnt : ∀ w, s.slot ≠ some (Handler.trigger w))
    (h : send_action b id name payload s = .ok s') :
    s'.time = s.time ∧ s'.slot = s.slot ∧ s'.nextWaitId = s.nextWaitId ∧
    s'.sendCount = s.sendCount + 1 ∧ s'.triggered = s.triggered ∧
    s'.trace = ⟨s.time, Event.sendAction id name payload⟩ :: s.trace := by
  by_cases hf : b.sendFails s.sendCount
  · rw [send_action] at h
    simp [hf] at h
  · rcases hm : b.resultMode
    · have he : send_action b id name payload s =
          .ok (emit (Event.sendAction id name payload) { s with sendCount := s.sendCount + 1 }) := by
        rw [send_action]
        rcases hsl : s.slot with _ | hh
        · simp [hf, hm, invokeSlot, emit, hsl]
        · cases hh with
          | ext n => simp [hf, hm, invokeSlot, emit, hsl]
          | trigger w => exact absurd hsl (hnt w)
      rw [he] at h
      injection h with h
      subst h
      simp [emit]
    · have he : send_action b id name payload s =
          .ok { emit (Event.sendAction id name payload) { s with sendCount := s.sendCount + 1 }
                  with pending := true } := by
        rw [send_action]
        simp [hf, hm]
      rw [he] at h
      injection h with h
      subst h
      simp [emit]
    · have he : send_action b id name payload s =
          .ok (emit (Event.sendAction id name payload) { s with sendCount := s.sendCount + 1 }) := by
        rw [send_action]
        simp [hf, hm]
      rw [he] at h
      injection h with h
      subst h
      simp [emit]

lemma send_action_err {b : Behavior} {id name : String} {payload : Option String}
    {s s' : St} (h : send_action b id name payload s = .error s') :
    s' = emit (Event.sendAction id name payload) { s with sendCount := s.sendCount + 1 } ∧
    b.sendFails s.sendCount = true := by
  rw [send_action] at h
  by_cases hf : b.sendFails s.sendCount
  · simp only [hf, if_pos] at h
    injection h with h
    exact ⟨h.symm, hf⟩
  · exfalso
    rcases hm : b.resultMode with _ | _ | _ <;> rw [hm] at h <;> simp [hf] at h

/-! ### The sequencer over the script -/

lemma runScript_spec {b : Behavior} {fuel : Nat} : ∀ (steps : List ScriptStep) (s out : St),
    runScript b fuel steps s = some (Outcome.ok out) →
    (∀ w, s.slot ≠ some (Handler.trigger w)) →
    (∀ w ∈ s.triggered, w < s.nextWaitId) →
    s.pending = false →
    out.slot = s.slot ∧ out.pending = false ∧
    out.nextWaitId = s.nextWaitId + steps.length ∧
    s.time ≤ out.time ∧ (∀ w ∈ out.triggered, w < out.nextWaitId) ∧
    (∃ dAll, out.trace = dAll ++ s.trace) ∧
    keyEvents out.trace = keyEvents s.trace ++ stepsKeyChron s.slot s.nextWaitId steps ∧
    sendIds out.trace = sendIds s.trace ++ steps.map (fun stp => stp.id) ∧
    stopCount out.trace = stopCount s.trace ∧
    ∃ ts, sendTimes out.trace = sendTimes s.trace ++ ts.map Prod.fst ∧
      ts.length = steps.length ∧ stepChain out.trace s.time s.nextWaitId ts steps := by
  intro steps
  induction steps with
  | nil =>
    intro s out h hnt htb hp
    rw [runScript] at h
    obtain rfl : s = out := by simpa using h
    exact ⟨rfl, hp, by simp, le_refl _, htb, ⟨[], by simp⟩, by simp [stepsKeyChron],
      by simp, rfl, [], by simp, rfl, trivial⟩
  | cons stp rest ih =>
    intro s out h hnt htb hp
    rw [runScript] at h
    rcases hsend : send_action b stp.id stp.name stp.payload s with s1 | s1 <;>
      simp only [hsend] at h
    · simp at h
    · rcases hwait : wait_for_action_result b fuel s1 with _ | s2 <;>
        simp only [hwait] at h
      · simp at h
      · obtain ⟨e1, e2, e3, e4, e5, e6⟩ := send_action_ok hnt hsend
        have hfresh : s1.nextWaitId ∉ s1.triggered := by
          rw [e3, e5]
          intro hmem
          exact lt_irrefl _ (htb _ hmem)
        obtain ⟨w1, w2, w3, w4, w5, w6, ⟨r, hr1, hr2, hr3⟩, dw, hdw, hobsw⟩ :=
          wait_for_action_result_spec hfresh hwait
        have hs3 : sleepD stp.delay s2 = { s2 with time := s2.time + stp.delay } :=
          sleepD_pending_false w5 _
        rw [hs3] at h
        have hnt3 : ∀ w,
            ({ s2 with time := s2.time + stp.delay } : St).slot ≠ some (Handler.trigger w) := by
          intro w
          simpa [w1, e2] using hnt w
        have htb3 : ∀ w ∈ ({ s2 with time := s2.time + stp.delay } : St).triggered,
            w < ({ s2 with time := s2.time + stp.delay } : St).nextWaitId := by
          intro w hw
          simp only [w6, e5, e3] at hw ⊢
          rw [w2, e3]
          rcases List.mem_insert_iff.mp hw with rfl | hw2
          · omega
          · have := htb _ hw2
            omega
        obtain ⟨o1, o2, o3, o4, o5, ⟨dA, hdA⟩, okey, oid, ostop, ts', hts1, hts2, hts3⟩ :=
          ih _ out h hnt3 htb3 (by simpa using w5)
        dsimp only at o1 o3 o4 okey oid ostop hts1 hts3 hdA
        have hobsk : dw.reverse.filterMap keyEv = [] := by
          simpa [chron] using obsOnly_keyEv (obsOnly_chron hobsw)
        have hobsi : dw.reverse.filterMap sendIdEv = [] := by
          simpa [chron] using obsOnly_sendIdEv (obsOnly_chron hobsw)
        have hobst : dw.reverse.filterMap sendTimeEv = [] := by
          simpa [chron] using obsOnly_sendTimeEv (obsOnly_chron hobsw)
        have hk2 : keyEvents s2.trace = keyEvents s.trace ++
            [Event.sendAction stp.id stp.name stp.payload,
             Event.installHandler s.nextWaitId, Event.restoreHandler s.slot] := by
          rw [hdw, keyEvents_append, keyEvents_cons, e6, keyEvents_cons]
          simp [chron, List.filterMap_append, keyEv, hobsk, e2, e3]
        have hsid2 : sendIds s2.trace = sendIds s.trace ++ [stp.id] := by
          rw [hdw, sendIds_append, sendIds_cons, e6, sendIds_cons]
          simp [chron, List.filterMap_append, sendIdEv, hobsi]
        have hst2 : sendTimes s2.trace = sendTimes s.trace ++ [s.time] := by
          rw [hdw, sendTimes_append, sendTimes_cons, e6, sendTimes_cons]
          simp [chron, List.filterMap_append, sendTimeEv, hobst, e1]
        have hsc2 : stopCount s2.trace = stopCount s.trace := by
          rw [hdw, e6]
          rw [show ((⟨s2.time, Event.restoreHandler s1.slot⟩ : TEv) :: dw ++
              (⟨s1.time, Event.installHandler s1.nextWaitId⟩ : TEv) ::
                (⟨s.time, Event.sendAction stp.id stp.name stp.payload⟩ : TEv) :: s.trace) =
            ((⟨s2.time, Event.restoreHandler s1.slot⟩ : TEv) :: dw ++
              [⟨s1.time, Event.installHandler s1.nextWaitId⟩,
               ⟨s.time, Event.sendAction stp.id stp.name stp.payload⟩]) ++ s.trace by simp]
          rw [stopCount_append]
          have hz : stopCount ((⟨s2.time, Event.restoreHandler s1.slot⟩ : TEv) :: dw ++
              [⟨s1.time, Event.installHandler s1.nextWaitId⟩,
               ⟨s.time, Event.sendAction stp.id stp.name stp.payload⟩]) = 0 := by
            rw [show ((⟨s2.time, Event.restoreHandler s1.slot⟩ : TEv) :: dw ++
                [⟨s1.time, Event.installHandler s1.nextWaitId⟩,
                 ⟨s.time, Event.sendAction stp.id stp.name stp.payload⟩]) =
              [(⟨s2.time, Event.restoreHandler s1.slot⟩ : TEv)] ++ dw ++
                [⟨s1.time, Event.installHandler s1.nextWaitId⟩,
                 ⟨s.time, Event.sendAction stp.id stp.name stp.payload⟩] by simp]
            rw [stopCount_append, stopCount_append, obsOnly_stopCount hobsw]
            simp [stopCount]
          omega
        refine ⟨?_, o2, ?_, ?_, o5, ?_, ?_, ?_, ?_, (s.time, s2.time) :: ts', ?_, ?_, ?_⟩
        · rw [o1, w1, e2]
        · rw [o3, w2, e3]
          simp only [List.length_cons]
          omega
        · have h4 : s.time ≤ s2.time := by
            rw [← e1]
            exact w4
          omega
        · refine ⟨dA ++ ((⟨s2.time, Event.restoreHandler s.slot⟩ : TEv) :: dw ++
            [⟨s.time, Event.installHandler s.nextWaitId⟩,
             ⟨s.time, Event.sendAction stp.id stp.name stp.payload⟩]), ?_⟩
          rw [hdA, hdw, e6]
          simp [e1, e2, e3]
        · rw [okey, hk2, w1, e2, w2, e3]
          simp [stepsKeyChron, List.append_assoc]
        · rw [oid, hsid2]
          simp [List.append_assoc]
        · rw [ostop]
          exact hsc2
        · rw [hts1, hst2]
          simp [List.append_assoc]
        · simp [hts2]
        · rw [stepChain]
          refine ⟨rfl, by rw [← e1]; exact w4, ⟨r, by rw [← e1]; exact hr1, hr2, ?_⟩, ?_⟩
          · rw [hdA]
            refine List.mem_append_right _ ?_
            simpa [e3] using hr3
          · rw [w2, e3] at hts3
            exact hts3

/-! ### Chain helpers and the specification of a successful run of main -/

lemma stepChain_mono {tr tr2 : List TEv} (hsub : ∀ te ∈ tr, te ∈ tr2) :
    ∀ (ts : List (Nat × Nat)) (steps : List ScriptStep) (t0 w : Nat),
    stepChain tr t0 w ts steps → stepChain tr2 t0 w ts steps := by
  intro ts
  induction ts with
  | nil =>
    intro steps t0 w h
    cases steps with
    | nil => exact h
    | cons a as => exact h.elim
  | cons p rest ih =>
    rcases p with ⟨pa, pb⟩
    intro steps t0 w h
    cases steps with
    | nil => exact h.elim
    | cons stp ss =>
      obtain ⟨h1, h2, ⟨r, hr1, hr2, hr3⟩, h4⟩ := h
      exact ⟨h1, h2, ⟨r, hr1, hr2, hsub _ hr3⟩, ih ss _ _ h4⟩

lemma stepChain_index {tr : List TEv} :
    ∀ (ts : List (Nat × Nat)) (steps : List ScriptStep) (t0 w i : Nat),
    stepChain tr t0 w ts steps → i + 1 < ts.length →
    ∃ ti ti1 r stp, (ts.map Prod.fst)[i]? = some ti ∧
      (ts.map Prod.fst)[i + 1]? = some ti1 ∧ steps[i]? = some stp ∧
      (⟨r, Event.resultObserved (w + i)⟩ : TEv) ∈ tr ∧ ti ≤ r ∧ r + stp.delay ≤ ti1 := by
  intro ts
  induction ts with
  | nil =>
    intro steps t0 w i h hi
    simp at hi
  | cons p rest ih =>
    rcases p with ⟨pa, pb⟩
    intro steps t0 w i h hi
    cases steps with
    | nil => exact h.elim
    | cons stp ss =>
      obtain ⟨h1, h2, ⟨r, hr1, hr2, hr3⟩, h4⟩ := h
      cases i with
      | zero =>
        cases rest with
        | nil => simp at hi
        | cons q rest2 =>
          rcases q with ⟨qa, qb⟩
          cases ss with
          | nil => exact h4.elim
          | cons stp2 ss2 =>
            obtain ⟨g1, g2, g3, g4⟩ := h4
            refine ⟨pa, qa, r, stp, by simp, by simp, by simp, by simpa using hr3, hr1, ?_⟩
            rw [g1]
            omega
      | succ j =>
        obtain ⟨ti, ti1, r2, stp2, k1, k2, k3, k4, k5, k6⟩ :=
          ih ss _ _ j h4 (by simpa using hi)
        refine ⟨ti, ti1, r2, stp2, by simpa using k1, by simpa using k2, by simpa using k3,
          ?_, k5, k6⟩
        have hw : w + 1 + j = w + (j + 1) := by omega
        rw [hw] at k4
        exact k4

lemma runMain_ok_spec {b : Behavior} {es : Option Nat} {fuel : Nat} {out : St}
    (h : runMain b es fuel = some (Outcome.ok out)) :
    keyEvents out.trace = mainKeyEvents es ∧
    sendIds out.trace = nineIds ∧
    stopCount out.trace = 1 ∧
    ∃ t0 ts, sendTimes out.trace = ts.map Prod.fst ∧ ts.length = 9 ∧
      stepChain out.trace t0 0 ts script := by
  rw [runMain] at h
  by_cases hsf : b.startFails
  · rw [startCh] at h
    simp [hsf] at h
  · have hok : startCh b "localhost" 8000 (initSt es) =
        Except.ok (emit (Event.start "localhost" 8000) (initSt es)) := by
      rw [startCh]
      simp [hsf]
    simp only [hok] at h
    rcases hsu : wait_for_startup b fuel (emit (Event.start "localhost" 8000) (initSt es))
      with _ | sA <;> simp only [hsu] at h
    · simp at h
    · obtain ⟨t1, ht1a, ht1b, rfl⟩ :=
        wait_for_startup_pf fuel _ sA (by simp [emit, initSt]) hsu
      rcases hfu : wait_for_actions_force b fuel
          (emit Event.readyDone
            { emit (Event.start "localhost" 8000) (initSt es) with time := t1 })
        with _ | sB <;> simp only [hfu] at h
      · simp at h
      · obtain ⟨t2, ht2a, ht2b, rfl⟩ :=
          wait_for_actions_force_pf fuel _ sB (by simp [emit, initSt]) hfu
        rw [sleepD_pending_false (by simp [emit, initSt])] at h
        dsimp only [emit, initSt] at h
        rcases hrs : runScript b fuel script
            ⟨t2 + 10, es.map Handler.ext, false, [], 0, 0,
             [⟨t2, Event.forcedDone⟩, ⟨t1, Event.readyDone⟩,
              ⟨0, Event.start "localhost" 8000⟩]⟩
          with _ | o
        · rw [hrs] at h
          simp at h
        · rw [hrs] at h
          cases o with
          | raised x => simp at h
          | ok s3 =>
            obtain rfl : emit Event.stop s3 = out := by simpa using h
            obtain ⟨p1, p2, p3, p4, p5, ⟨dAll, hdAll⟩, pkey, pid, pstop, ts, q1, q2, q3⟩ :=
              runScript_spec script _ s3 hrs
                (by intro w; cases es <;> simp) (by intro w hw; simp at hw) rfl
            dsimp only at p1 p2 p3 p4 p5 pkey pid pstop q1 q3
            refine ⟨?_, ?_, ?_, t2 + 10, ts, ?_, by simpa [script] using q2, ?_⟩
            · rw [show (emit Event.stop s3).trace = ⟨s3.time, Event.stop⟩ :: s3.trace from rfl,
                keyEvents_cons, pkey]
              simp [keyEvents, chron, keyEv, mainKeyEvents]
            · rw [show (emit Event.stop s3).trace = ⟨s3.time, Event.stop⟩ :: s3.trace from rfl,
                sendIds_cons, pid]
              simp [sendIds, chron, sendIdEv]
              rfl
            · rw [show (emit Event.stop s3).trace = ⟨s3.time, Event.stop⟩ :: s3.trace from rfl]
              have hz : stopCount s3.trace = 0 := by
                rw [pstop]
                simp [stopCount, List.countP_cons, List.countP_nil]
              rw [show ((⟨s3.time, Event.stop⟩ : TEv) :: s3.trace) =
                [(⟨s3.time, Event.stop⟩ : TEv)] ++ s3.trace from rfl, stopCount_append, hz]
              simp [stopCount, List.countP_cons, List.countP_nil]
            · rw [show (emit Event.stop s3).trace = ⟨s3.time, Event.stop⟩ :: s3.trace from rfl,
                sendTimes_cons, q1]
              simp [sendTimes, chron, sendTimeEv]
            · refine stepChain_mono ?_ ts script _ _ q3
              intro te hte
              rw [show (emit Event.stop s3).trace = ⟨s3.time, Event.stop⟩ :: s3.trace from rfl]
              exact List.mem_cons_of_mem _ hte

/-! ### The synchronous-delivery channel makes the result wait hang -/

lemma invokeSlot_pending (s : St) : (invokeSlot s).pending = s.pending := by
  rw [invokeSlot]
  rcases hs : s.slot with _ | h
  · rfl
  · cases h with
    | ext n => rfl
    | trigger w => simp [trigger, emit]

lemma send_action_ok_pending {b : Behavior} {id name : String} {payload : Option String}
    {s s' : St} (hm : b.resultMode ≠ ResultMode.nextTick)
    (h : send_action b id name payload s = .ok s') : s'.pending = s.pending := by
  rw [send_action] at h
  by_cases hf : b.sendFails s.sendCount
  · simp [hf] at h
  · simp only [hf, Bool.false_eq_true, if_neg, not_false_iff] at h
    rcases hmm : b.resultMode with _ | _ | _ <;> rw [hmm] at h <;>
      simp only [Except.ok.injEq] at h
    · rw [← h, invokeSlot_pending]
      simp [emit]
    · exact absurd hmm hm
    · rw [← h]
      simp [emit]

lemma wait_for_action_result_stuck {b : Behavior} {fuel : Nat} {s : St}
    (hfresh : s.nextWaitId ∉ s.triggered) (hp : s.pending = false) :
    wait_for_action_result b fuel s = none := by
  rw [wait_for_action_result]
  rw [waitResultLoop_stuck fuel s.nextWaitId _ (by simpa [emit] using hfresh)
    (by simpa [emit] using hp)]

lemma runScript_syncB_none (fuel : Nat) (steps : List ScriptStep) (s : St)
    (hne : steps ≠ []) (hp : s.pending = false)
    (hnt : ∀ w, s.slot ≠ some (Handler.trigger w))
    (hfresh : s.nextWaitId ∉ s.triggered) :
    runScript syncB fuel steps s = none := by
  cases steps with
  | nil => exact absurd rfl hne
  | cons stp rest =>
    rw [runScript]
    rcases hsend : send_action syncB stp.id stp.name stp.payload s with s1 | s1
    · obtain ⟨_, hfail⟩ := send_action_err hsend
      simp [syncB] at hfail
    · simp only [hsend]
      obtain ⟨e1, e2, e3, e4, e5, e6⟩ := send_action_ok hnt hsend
      have hp1 : s1.pending = false := by
        rw [send_action_ok_pending (by simp [syncB]) hsend]
        exact hp
      have hf1 : s1.nextWaitId ∉ s1.triggered := by
        rw [e3, e5]
        exact hfresh
      rw [wait_for_action_result_stuck hf1 hp1]

lemma runMain_syncB_none : ∀ fuel : Nat, runMain syncB none fuel = none := by
  intro fuel
  rw [runMain]
  have hok : startCh syncB "localhost" 8000 (initSt none) =
      Except.ok (emit (Event.start "localhost" 8000) (initSt none)) := by
    rw [startCh]
    simp [syncB]
  simp only [hok]
  rcases hsu : wait_for_startup syncB fuel (emit (Event.start "localhost" 8000) (initSt none))
    with _ | sA
  · simp only [hsu]
  · simp only [hsu]
    obtain ⟨t1, _, _, rfl⟩ := wait_for_startup_pf fuel _ sA (by simp [emit, initSt]) hsu
    rcases hfu : wait_for_actions_force syncB fuel
        (emit Event.readyDone
          { emit (Event.start "localhost" 8000) (initSt none) with time := t1 })
      with _ | sB
    · simp only [hfu]
    · simp only [hfu]
      obtain ⟨t2, _, _, rfl⟩ := wait_for_actions_force_pf fuel _ sB (by simp [emit, initSt]) hfu
      rw [sleepD_pending_false (by simp [emit, initSt])]
      rw [runScript_syncB_none fuel script _ (by simp [script]) (by simp [emit, initSt])
        (by intro w; simp [emit, initSt]) (by simp [emit, initSt])]

/-! ### Remaining counting lemmas -/

lemma restoreCount_append (d tr : List TEv) :
    restoreCount (d ++ tr) = restoreCount d + restoreCount tr := by
  simp [restoreCount, List.countP_append]

lemma obsOnly_restoreCount {d : List TEv} (h : obsOnly d) : restoreCount d = 0 := by
  rw [restoreCount, List.countP_eq_zero]
  intro te hte
  obtain ⟨w, hw⟩ := h te hte
  simp [isRestoreEv, hw]

/-! ### The claims -/

/-- C4: every invocation of wait_for_action_result that returns has restored
the handler that sat in the on_action_result slot at entry: the slot at exit
equals the slot at entry, and the events added by the call contain exactly one
restoreHandler event, which is the last of them and carries the saved
value, also when the saved value is none. -/
theorem C4_restores_prev_handler_once {b : Behavior} {fuel : Nat} {s s2 : St}
    (h : wait_for_action_result b fuel s = some s2) :
    s2.slot = s.slot ∧
    ∃ d, s2.trace = d ++ s.trace ∧ restoreCount d = 1 ∧
      d.head? = some ⟨s2.time, Event.restoreHandler s.slot⟩ := by
  obtain ⟨h1, _, _, _, d, hd, hobs⟩ := wait_for_action_result_frame h
  refine ⟨h1, ⟨s2.time, Event.restoreHandler s.slot⟩ :: d ++
    [⟨s.time, Event.installHandler s.nextWaitId⟩], ?_, ?_, ?_⟩
  · rw [hd]
    simp
  · rw [show ((⟨s2.time, Event.restoreHandler s.slot⟩ : TEv) :: d ++
        [⟨s.time, Event.installHandler s.nextWaitId⟩]) =
      [(⟨s2.time, Event.restoreHandler s.slot⟩ : TEv)] ++ d ++
        [⟨s.time, Event.installHandler s.nextWaitId⟩] by simp]
    rw [restoreCount_append, restoreCount_append, obsOnly_restoreCount hobs]
    simp [restoreCount, List.countP_cons, List.countP_nil, isRestoreEv]
  · simp

/-- C4 witness: a concrete run of wait_for_action_result whose saved handler
is none, checked against the theorem. -/
theorem C4_witness : ∃ s2, wait_for_action_result asyncB 3 demoSt = some s2 ∧
    s2.slot = none ∧ ∃ d, s2.trace = d ++ demoSt.trace ∧ restoreCount d = 1 := by
  obtain ⟨s2, hs2⟩ : ∃ s2, wait_for_action_result asyncB 3 demoSt = some s2 := ⟨_, rfl⟩
  obtain ⟨h1, d, hd, hc, _⟩ := C4_restores_prev_handler_once hs2
  exact ⟨s2, hs2, by simpa [demoSt] using h1, d, hd, hc⟩

/-- C5: the trigger closure installed by wait_for_action_result marks the wait
as observed on its first invocation, a second invocation leaves the
observed-result state exactly as after the first, and once the closure has
fired the wait loop completes at its next check. -/
theorem C5_trigger_first_invocation (w : Nat) (s : St) (fuel : Nat) :
    (trigger w (trigger w s)).triggered = (trigger w s).triggered ∧
    w ∈ (trigger w s).triggered ∧
    waitResultLoop w (fuel + 1) (trigger w s) = some (trigger w s) := by
  refine ⟨?_, ?_, ?_⟩
  · by_cases hm : w ∈ s.triggered <;> simp [trigger, emit, List.insert, hm]
  · simp [trigger, emit]
  · rw [waitResultLoop]
    simp [trigger, emit]

/-- C6: wait_for_startup returns only after the readiness signal has been
read true at the tick of return, and it writes nothing to the channel: the
handler slot is unchanged and the events of the wait contain no send, stop,
install or restore. -/
theorem C6_wait_for_startup_readonly {b : Behavior} {fuel : Nat} {s s2 : St}
    (h : wait_for_startup b fuel s = some s2) :
    b.currentGame s2.time = true ∧ s2.slot = s.slot ∧
    ∃ d, s2.trace = d ++ s.trace ∧ ∀ te ∈ d, channelWrite te.ev = false := by
  obtain ⟨h1, _, _, _, h5, d, hd, hobs⟩ := wait_for_startup_frame fuel s s2 h
  refine ⟨h5, h1, ⟨s2.time, Event.readyDone⟩ :: d, by simpa using hd, ?_⟩
  intro te hte
  rcases List.mem_cons.mp hte with rfl | hte2
  · rfl
  · obtain ⟨w, hw⟩ := hobs te hte2
    simp [channelWrite, hw]

/-- C6 witness: a concrete terminating readiness wait checked against the
theorem. -/
theorem C6_witness : ∃ s2, wait_for_startup lateB 5 (initSt none) = some s2 ∧
    lateB.currentGame s2.time = true ∧ s2.slot = (initSt none).slot ∧
    ∃ d, s2.trace = d ++ (initSt none).trace ∧ ∀ te ∈ d, channelWrite te.ev = false := by
  obtain ⟨s2, hs2⟩ : ∃ s2, wait_for_startup lateB 5 (initSt none) = some s2 := ⟨_, rfl⟩
  obtain ⟨h1, h2, h3⟩ := C6_wait_for_startup_readonly hs2
  exact ⟨s2, hs2, h1, h2, h3⟩

/-- C7: the two polling waiters have no timeout and no cancellation: on a
channel whose polled signal never becomes true they return none at every
fuel, i.e. they stay suspended forever; and whenever the signal is true from
some tick on, some fuel makes them return. -/
theorem C7_no_timeout_no_cancellation (b : Behavior) (s : St) :
    ((∀ t, b.currentGame t = false) → ∀ fuel, wait_for_startup b fuel s = none) ∧
    ((∀ t, b.actionForced t = false) → ∀ fuel, wait_for_actions_force b fuel s = none) ∧
    (∀ T, (∀ t, T ≤ t → b.currentGame t = true) →
      ∃ fuel s2, wait_for_startup b fuel s = some s2) ∧
    (∀ T, (∀ t, T ≤ t → b.actionForced t = true) →
      ∃ fuel s2, wait_for_actions_force b fuel s = some s2) := by
  refine ⟨fun hb fuel => wait_for_startup_never hb fuel s,
    fun hb fuel => wait_for_actions_force_never hb fuel s, ?_, ?_⟩
  · intro T hb
    obtain ⟨s2, hs2⟩ := wait_for_startup_total hb T s (by omega)
    exact ⟨T + 1, s2, hs2⟩
  · intro T hb
    obtain ⟨s2, hs2⟩ := wait_for_actions_force_total hb T s (by omega)
    exact ⟨T + 1, s2, hs2⟩

/-- C7 witness: the waiters suspended forever on a channel that never signals,
and terminating on a channel that signals from tick 3 on. -/
theorem C7_witness :
    wait_for_startup neverB 7 (initSt none) = none ∧
    wait_for_actions_force neverB 7 (initSt none) = none ∧
    (∃ fuel s2, wait_for_startup lateB fuel (initSt none) = some s2) ∧
    (∃ fuel s2, wait_for_actions_force lateB fuel (initSt none) = some s2) := by
  refine ⟨(C7_no_timeout_no_cancellation neverB (initSt none)).1 (fun t => rfl) 7,
    (C7_no_timeout_no_cancellation neverB (initSt none)).2.1 (fun t => rfl) 7,
    (C7_no_timeout_no_cancellation lateB (initSt none)).2.2.1 3 ?_,
    (C7_no_timeout_no_cancellation lateB (initSt none)).2.2.2 3 ?_⟩
  · intro t ht
    simpa [lateB] using ht
  · intro t ht
    simpa [lateB] using ht

/-- C9: the command ids baked into the literal script are id_1 through id_9
in order and pairwise distinct. -/
theorem C9_script_ids_distinct :
    script.map (fun stp => stp.id) = nineIds ∧
    (script.map (fun stp => stp.id)).Nodup := by
  constructor
  · rfl
  · decide

/-- C10: every payload of the literal script is either none or the
json.dumps serialization of a string-keyed object. -/
theorem C10_payloads_json (stp : ScriptStep) (h : stp ∈ script) :
    stp.payload = none ∨
    ∃ ps : List (String × String), stp.payload = some (jsonDumps ps) := by
  fin_cases h
  · exact Or.inr ⟨[("answer", "Sure, I\x27ll see what I can do.")], rfl⟩
  · exact Or.inl rfl
  · exact Or.inr ⟨[("filePath", "fixme.js")], rfl⟩
  · exact Or.inl rfl
  · exact Or.inr ⟨[("find", "greetign"), ("replaceWith", "greeting"),
      ("match", "firstInFile")], rfl⟩
  · exact Or.inl rfl
  · exact Or.inr ⟨[("find", ".replace(\x27%s\x27, greetingFormat)"),
      ("replaceWith", ".replace(\x27%s\x27, greetingTarget)"),
      ("match", "firstAfterCursor")], rfl⟩
  · exact Or.inl rfl
  · exact Or.inr ⟨[("flavor", "Chocolate Chip")], rfl⟩

/-- C10 witness: the first script step, checked against the theorem. -/
theorem C10_witness :
    ∃ stp, script.head? = some stp ∧ (stp.payload = none ∨
      ∃ ps : List (String × String), stp.payload = some (jsonDumps ps)) := by
  refine ⟨_, rfl, C10_payloads_json _ ?_⟩
  simp [script]

/-- C1 counterexample: with the channel exactly as the claim states it
(ready after 2 poll ticks, forced after 3 more, and the currently installed
result handler invoked synchronously inside every send_action call), main
never completes at any fuel: the synchronous invocation hits the previously
restored handler, never the trigger closure installed only afterwards by
wait_for_action_result, so the first result wait polls a flag that nothing
sets.  In particular there is no run with nine sends followed by a stop. -/
theorem C1_counterexample : ¬ ∃ fuel out, runMain syncB none fuel = some out := by
  rintro ⟨fuel, out, hout⟩
  rw [runMain_syncB_none fuel] at hout
  exact Option.noConfusion hout

/-- C1 (amended): with the channel that becomes ready after 2 poll ticks,
becomes forced after 3 more ticks, and delivers each result notification at
the next scheduler tick after the send_action call (instead of synchronously
inside it), running main completes with exactly nine send_action calls with
ids id_1 .. id_9 in order, followed by exactly one stop call, and no command
is sent before the result of the previous command was observed. -/
theorem C1_amended_end_to_end :
    isOk (runMain asyncB none 10) = true ∧
    sendIds (runTrace (runMain asyncB none 10)) = nineIds ∧
    stopCount (runTrace (runMain asyncB none 10)) = 1 ∧
    keyEvents (runTrace (runMain asyncB none 10)) = mainKeyEvents none ∧
    sendsAfterResults ((chron (runTrace (runMain asyncB none 10))).map TEv.ev) = true := by
  refine ⟨rfl, rfl, rfl, rfl, rfl⟩

/-- C2: every successful run of main, over any channel behaviour, initial
external handler and fuel, produces exactly the expected chronological
key-event trace: the start call, one completed readiness wait, one completed
forced-action wait, then for each of the nine script steps in literal order
its send followed by exactly one install/restore pair of a result wait, and
finally exactly one stop. -/
theorem C2_nine_sends_lockstep {b : Behavior} {es : Option Nat} {fuel : Nat} {out : St}
    (h : runMain b es fuel = some (Outcome.ok out)) :
    keyEvents out.trace = mainKeyEvents es ∧
    sendIds out.trace = nineIds ∧
    stopCount out.trace = 1 := by
  obtain ⟨k, i, st, _⟩ := runMain_ok_spec h
  exact ⟨k, i, st⟩

/-- C2 witness: the concrete end-to-end run, checked against the theorem. -/
theorem C2_witness : ∃ out, runMain asyncB none 10 = some (Outcome.ok out) ∧
    keyEvents out.trace = mainKeyEvents none ∧ sendIds out.trace = nineIds ∧
    stopCount out.trace = 1 := by
  obtain ⟨out, hout⟩ : ∃ out, runMain asyncB none 10 = some (Outcome.ok out) := ⟨_, rfl⟩
  exact ⟨out, hout, C2_nine_sends_lockstep hout⟩

/-- C3: strict total order of the sequencer: in every successful run of main
and for every step index i with i + 1 < 9, there are the tick of send i, the
tick of send i + 1 and a tick r at which the result notification of step i
was observed, such that send i happens at or before r and send i + 1 happens
no earlier than r plus the fixed post-result delay of step i. -/
theorem C3_strict_total_order {b : Behavior} {es : Option Nat} {fuel : Nat} {out : St}
    (h : runMain b es fuel = some (Outcome.ok out)) (i : Nat) (hi : i + 1 < 9) :
    ∃ ti ti1 r stp, (sendTimes out.trace)[i]? = some ti ∧
      (sendTimes out.trace)[i + 1]? = some ti1 ∧ script[i]? = some stp ∧
      (⟨r, Event.resultObserved i⟩ : TEv) ∈ out.trace ∧ ti ≤ r ∧ r + stp.delay ≤ ti1 := by
  obtain ⟨_, _, _, t0, ts, hst, hlen, hchain⟩ := runMain_ok_spec h
  obtain ⟨ti, ti1, r, stp, k1, k2, k3, k4, k5, k6⟩ :=
    stepChain_index ts script t0 0 i hchain (by omega)
  rw [hst]
  exact ⟨ti, ti1, r, stp, k1, k2, k3, by simpa using k4, k5, k6⟩

/-- C3 witness: the ordering of the first two sends in the concrete
end-to-end run, checked against the theorem. -/
theorem C3_witness : ∃ out, runMain asyncB none 10 = some (Outcome.ok out) ∧
    ∃ ti ti1 r stp, (sendTimes out.trace)[0]? = some ti ∧
      (sendTimes out.trace)[1]? = some ti1 ∧ script[0]? = some stp ∧
      (⟨r, Event.resultObserved 0⟩ : TEv) ∈ out.trace ∧ ti ≤ r ∧ r + stp.delay ≤ ti1 := by
  obtain ⟨out, hout⟩ : ∃ out, runMain asyncB none 10 = some (Outcome.ok out) := ⟨_, rfl⟩
  exact ⟨out, hout, C3_strict_total_order hout 0 (by omega)⟩

/-- C8: no exception is caught anywhere in the sequencer or the waiters: when
the start call raises (case 0) or when send number k raises (case k + 1), the
run ends with the exception propagated out of main, the trace holds exactly
the sends up to and including the raising one, and no stop call is made. -/
theorem C8_failures_propagate : ∀ k : Fin 10,
    isRaised (runMain (failB k) none 10) = true ∧
    sendIds (runTrace (runMain (failB k) none 10)) = nineIds.take k.val ∧
    stopCount (runTrace (runMain (failB k) none 10)) = 0 := by
  decide
